import Mathlib

/-!
Shallow embedding of the HowManyDucks word-search engine (`hmf_game.py`).

The Python module uses the process-global `random` module as its only source
of randomness.  We model that global pseudo-random stream explicitly as a
value of type `RNG`: an infinite stream of natural numbers together with a
read position.  Each primitive draw (`random.randint`, `random.choice`)
consumes exactly one stream element; `random.seed` replaces the global
stream wholesale.  Every stateful function of the source is embedded as a
pure function that takes the current `RNG` and returns the updated one, and
fallible code returns `Except PyError`.  Universally quantified theorems
range over all streams, which covers every behaviour of the concrete
Mersenne-Twister stream used by CPython.
-/

namespace HMF

/-- The Python exceptions that can escape or be caught inside the engine. -/
inductive PyError where
  | valueError : PyError
  | indexError : PyError
  | runtimeError : String → PyError
deriving DecidableEq, Repr

/-- The global pseudo-random stream: an infinite sequence of naturals plus
the current read position. -/
structure RNG where
  stream : Nat → Nat
  pos : Nat

/-- Consume one value from the stream. -/
def RNG.next (g : RNG) : Nat × RNG :=
  (g.stream g.pos, ⟨g.stream, g.pos + 1⟩)

/-- Model of `random.randint(a, b)`: a uniformly chosen integer in `[a, b]`;
raises `ValueError` when the range is empty (`b < a`), consuming nothing.
The stream value is mapped into the range via `%`, so every value of the
range is reachable. -/
def randint (a b : Int) (g : RNG) : Except PyError (Int × RNG) :=
  if b < a then .error .valueError
  else
    let (v, g') := g.next
    .ok (a + (v : Int) % (b - a + 1), g')

/-- Model of `random.choice(seq)`: an element at a uniformly chosen index;
raises `IndexError` on an empty sequence. -/
def choice {α : Type} (l : List α) (g : RNG) : Except PyError (α × RNG) :=
  match l with
  | [] => .error .indexError
  | x :: xs =>
    let (v, g') := g.next
    .ok ((x :: xs).getD (v % (x :: xs).length) x, g')

/-- `GameEngine.DIRECTIONS`: insertion-ordered association list of the 8
direction vectors (Python dicts preserve insertion order). -/
def DIRECTIONS : List (String × Int × Int) :=
  [("N", -1, 0), ("NE", -1, 1), ("E", 0, 1), ("SE", 1, 1),
   ("S", 1, 0), ("SW", 1, -1), ("W", 0, -1), ("NW", -1, -1)]

/-- `GameEngine.TARGET_WORD = "FUCK"` as a list of letters. -/
def TARGET_WORD : List Char := ['F', 'U', 'C', 'K']

/-- `GameEngine.LETTERS`. -/
def LETTERS : List Char := ['F', 'U', 'C', 'K']

/-- A grid cell: `None` (empty during construction) or a letter. -/
abbrev Cell := Option Char

/-- A grid: list of rows of cells. -/
abbrev Grid := List (List Cell)

/-- A recorded occurrence: start cell, direction label, ordered cell list. -/
structure Match where
  start : Int × Int
  dir : String
  cells : List (Int × Int)
deriving DecidableEq, Repr

/-- The metadata dictionary attached to a generated puzzle. -/
structure Metadata where
  size : Nat
  distribution_mode : String
  allow_overlap : Bool
  directions_mode : String
  seed : Option Int
deriving DecidableEq, Repr

/-- The dictionary returned by `GameEngine.generate_grid`.  The source's
`matches` key is spelled `matches'` because `matches` is a Lean keyword. -/
structure Puzzle where
  grid : Grid
  true_count : Int
  matches' : List Match
  metadata : Metadata
deriving DecidableEq, Repr

/-- `GameEngine._get_allowed_directions`. -/
def getAllowedDirections (mode : String) : List (String × Int × Int) :=
  if mode = "horizontal" then [("E", 0, 1), ("W", 0, -1)]
  else if mode = "horiz_vert" then
    DIRECTIONS.filter (fun d => decide (d.1 ∈ ["N", "S", "E", "W"]))
  else DIRECTIONS

/-- `GameEngine._create_empty_grid`. -/
def createEmptyGrid (size : Nat) : Grid :=
  List.replicate size (List.replicate size none)

/-- Read a cell by natural-number indices (both in range on every reachable
call: the source checks bounds before each access). -/
def natGet (g : Grid) (r c : Nat) : Cell :=
  (g.getD r []).getD c none

/-- Read a cell `grid[r][c]` with the source's integer coordinates. -/
def gridGet (g : Grid) (r c : Int) : Cell :=
  natGet g r.toNat c.toNat

/-- Write a cell `grid[r][c] = v`. -/
def gridSet (g : Grid) (r c : Int) (v : Char) : Grid :=
  g.set r.toNat ((g.getD r.toNat []).set c.toNat (some v))

/-- The cells `(row + dr*i, col + dc*i)` for `i < len`, as accumulated by
both `_place_word` and `_check_word_at_position`. -/
def pathCells (row col dr dc : Int) (len : Nat) : List (Int × Int) :=
  (List.range len).map fun (i : Nat) => (row + dr * i, col + dc * i)

/-- The occupancy check of `_place_word`: walk the word's cells; an occupied
cell is acceptable only when `allow_overlap` and the letter already there
equals the letter to be written. -/
def canPlaceFrom (g : Grid) (row col dr dc : Int) (allowOverlap : Bool) :
    List (Nat × Char) → Bool
  | [] => true
  | (i, letter) :: rest =>
    let r := row + dr * i
    let c := col + dc * i
    match gridGet g r c with
    | none => canPlaceFrom g row col dr dc allowOverlap rest
    | some x =>
      if allowOverlap ∧ x = letter then canPlaceFrom g row col dr dc allowOverlap rest
      else false

/-- The full occupancy check over `enumerate(TARGET_WORD)`. -/
def canPlace (g : Grid) (row col dr dc : Int) (allowOverlap : Bool) : Bool :=
  canPlaceFrom g row col dr dc allowOverlap TARGET_WORD.enum

/-- The write loop of `_place_word`: `grid[r][c] = letter` for each letter. -/
def writeWord (g : Grid) (row col dr dc : Int) : Grid :=
  TARGET_WORD.enum.foldl
    (fun g p => gridSet g (row + dr * p.1) (col + dc * p.1) p.2) g

/-- One-word placement loop of `GameEngine._place_word` (budget 1000 random
tries).  Returns `none` when the budget is exhausted, `some` with the
updated grid and the recorded match on success.  Each try consumes three
stream values (row, column, direction) exactly as the source consumes three
`random` draws. -/
def placeWordLoop (size : Nat) (dirs : List (String × Int × Int))
    (allowOverlap : Bool) (g : Grid) (rng : RNG) :
    Nat → Except PyError (Option (Grid × Match)) × RNG
  | 0 => (.ok none, rng)
  | fuel + 1 =>
    match randint 0 ((size : Int) - 1) rng with
    | .error e => (.error e, rng)
    | .ok (row, rng1) =>
      match randint 0 ((size : Int) - 1) rng1 with
      | .error e => (.error e, rng1)
      | .ok (col, rng2) =>
        match choice dirs rng2 with
        | .error e => (.error e, rng2)
        | .ok ((dirName, dr, dc), rng3) =>
          let endRow := row + dr * ((TARGET_WORD.length : Int) - 1)
          let endCol := col + dc * ((TARGET_WORD.length : Int) - 1)
          if ¬(0 ≤ endRow ∧ endRow < (size : Int) ∧ 0 ≤ endCol ∧ endCol < (size : Int)) then
            placeWordLoop size dirs allowOverlap g rng3 fuel
          else if canPlace g row col dr dc allowOverlap then
            (.ok (some (writeWord g row col dr dc,
              ⟨(row, col), dirName, pathCells row col dr dc TARGET_WORD.length⟩)), rng3)
          else
            placeWordLoop size dirs allowOverlap g rng3 fuel

/-- `_place_word`'s `max_attempts` budget. -/
def maxPlaceAttempts : Nat := 1000

/-- The `for _ in range(target_count)` placement loop of `generate_grid`:
place `k` words, raising `ValueError("Failed to place word")` when a
placement fails. -/
def placeWords (size : Nat) (dirs : List (String × Int × Int))
    (allowOverlap : Bool) : Nat → Grid → List Match → RNG →
    Except PyError (Grid × List Match) × RNG
  | 0, g, ms, rng => (.ok (g, ms), rng)
  | k + 1, g, ms, rng =>
    match placeWordLoop size dirs allowOverlap g rng maxPlaceAttempts with
    | (.error e, rng') => (.error e, rng')
    | (.ok none, rng') => (.error .valueError, rng')
    | (.ok (some (g', m)), rng') =>
      placeWords size dirs allowOverlap k g' (ms ++ [m]) rng'

/-- The filler multiset of `_fill_grid` for a distribution mode
(`['F']*4 + ['K']*4 + ['U'] + ['C']` when weighted, else `LETTERS`). -/
def fillWeights (mode : String) : List Char :=
  if mode = "weighted" then ['F', 'F', 'F', 'F', 'K', 'K', 'K', 'K', 'U', 'C']
  else LETTERS

/-- Fill one cell: empty cells receive `random.choice(weights)`, occupied
cells are left alone (no draw). -/
def fillCell (weights : List Char) (cell : Cell) (rng : RNG) :
    Except PyError Cell × RNG :=
  match cell with
  | none =>
    match choice weights rng with
    | .error e => (.error e, rng)
    | .ok (ch, rng') => (.ok (some ch), rng')
  | some x => (.ok (some x), rng)

/-- Fill one row left to right. -/
def fillRow (weights : List Char) : List Cell → RNG →
    Except PyError (List Cell) × RNG
  | [], rng => (.ok [], rng)
  | c :: cs, rng =>
    match fillCell weights c rng with
    | (.error e, rng') => (.error e, rng')
    | (.ok c', rng') =>
      match fillRow weights cs rng' with
      | (.error e, rng'') => (.error e, rng'')
      | (.ok cs', rng'') => (.ok (c' :: cs'), rng'')

/-- `GameEngine._fill_grid`: row-major fill of every empty cell. -/
def fillGrid (weights : List Char) : Grid → RNG →
    Except PyError Grid × RNG
  | [], rng => (.ok [], rng)
  | row :: rows, rng =>
    match fillRow weights row rng with
    | (.error e, rng') => (.error e, rng')
    | (.ok row', rng') =>
      match fillGrid weights rows rng' with
      | (.error e, rng'') => (.error e, rng'')
      | (.ok rows', rng'') => (.ok (row' :: rows'), rng'')

/-- The letter-collecting loop of `_check_word_at_position`, from index `i`
with `fuel` letters left to read: per cell, check bounds, then accumulate
the coordinate and the letter read there. -/
def checkWordFrom (g : Grid) (sr sc dr dc : Int) (size : Nat) :
    Nat → Nat → Option (List (Int × Int) × List Cell)
  | _, 0 => some ([], [])
  | i, fuel + 1 =>
    let r := sr + dr * i
    let c := sc + dc * i
    if 0 ≤ r ∧ r < (size : Int) ∧ 0 ≤ c ∧ c < (size : Int) then
      match checkWordFrom g sr sc dr dc size (i + 1) fuel with
      | some (cells, word) => some ((r, c) :: cells, gridGet g r c :: word)
      | none => none
    else none

/-- `GameEngine._check_word_at_position`: the word's cells when the target
word reads forward from `(sr, sc)` along `(dr, dc)`, else `None`. -/
def checkWordAtPosition (g : Grid) (sr sc dr dc : Int) (size : Nat) :
    Option (List (Int × Int)) :=
  match checkWordFrom g sr sc dr dc size 0 TARGET_WORD.length with
  | none => none
  | some (cells, word) =>
    if word = TARGET_WORD.map some then some cells else none

/-- The lexicographic order on coordinates used by Python's `sorted`. -/
def pairLe (a b : Int × Int) : Prop :=
  a.1 < b.1 ∨ (a.1 = b.1 ∧ a.2 ≤ b.2)

instance : DecidableRel pairLe := fun a b =>
  inferInstanceAs (Decidable (a.1 < b.1 ∨ (a.1 = b.1 ∧ a.2 ≤ b.2)))

/-- `GameEngine._normalize_match`: the canonical key of an occurrence, its
cells sorted lexicographically. -/
def normalizeMatch (cells : List (Int × Int)) : List (Int × Int) :=
  cells.insertionSort pairLe

/-- `GameEngine._is_duplicate_match`. -/
def isDuplicateMatch (normalized : List (Int × Int)) (ms : List Match) : Bool :=
  ms.any fun m => decide (normalizeMatch m.cells = normalized)

/-- One step of the scan loop body at a given (row, col, direction) triple. -/
def scanStep (g : Grid) (size : Nat) (acc : List Match)
    (t : Nat × Nat × String × Int × Int) : List Match :=
  match t with
  | (row, col, dirName, dr, dc) =>
    match checkWordAtPosition g row col dr dc size with
    | some cells =>
      let normalized := normalizeMatch cells
      if isDuplicateMatch normalized acc then acc
      else acc ++ [⟨((row : Int), (col : Int)), dirName, cells⟩]
    | none => acc

/-- The (row, col, direction) triples visited by `scan_grid`'s three nested
loops, linearised in source iteration order. -/
def scanTriples (size : Nat) (dirs : List (String × Int × Int)) :
    List (Nat × Nat × String × Int × Int) :=
  (List.range size).flatMap fun row =>
    (List.range size).flatMap fun col =>
      dirs.map fun d => (row, col, d.1, d.2.1, d.2.2)

/-- `GameEngine.scan_grid`: count and list of deduplicated occurrences. -/
def scan_grid (g : Grid) (directions_mode : String) : Nat × List Match :=
  let size := g.length
  let dirs := getAllowedDirections directions_mode
  let ms := (scanTriples size dirs).foldl (scanStep g size) []
  (ms.length, ms)

/-- The outcome of one body of `generate_grid`'s `try`: a returned puzzle, a
caught `ValueError` (leading to `continue`), or an uncaught exception. -/
inductive AttemptOutcome where
  | success : Puzzle → AttemptOutcome
  | fail : AttemptOutcome
  | fatal : PyError → AttemptOutcome
deriving DecidableEq, Repr

/-- One attempt of `generate_grid`'s retry loop: empty grid, placement,
fill, scan, and the count check; `except ValueError: continue` is modelled
by mapping `valueError` to `fail`. -/
def attemptOnce (size : Nat) (target : Int) (dm : String) (ao : Bool)
    (mode : String) (dirs : List (String × Int × Int)) (seedVal : Option Int)
    (rng : RNG) : AttemptOutcome × RNG :=
  match placeWords size dirs ao target.toNat (createEmptyGrid size) [] rng with
  | (.error .valueError, rng') => (.fail, rng')
  | (.error e, rng') => (.fatal e, rng')
  | (.ok (g, _), rng') =>
    match fillGrid (fillWeights dm) g rng' with
    | (.error .valueError, rng'') => (.fail, rng'')
    | (.error e, rng'') => (.fatal e, rng'')
    | (.ok g', rng'') =>
      let scanRes := scan_grid g' mode
      if (scanRes.1 : Int) = target then
        (.success ⟨g', target, scanRes.2, ⟨size, dm, ao, mode, seedVal⟩⟩, rng'')
      else (.fail, rng'')

/-- `generate_grid`'s `max_retries`. -/
def maxRetries : Nat := 25

/-- The terminal `RuntimeError` message of `generate_grid`. -/
def failMsg : String :=
  "Failed to generate valid grid after " ++ toString maxRetries ++
    " attempts. Try smaller grid, allow overlap, reduce count, or use even distribution."

/-- The `for attempt in range(max_retries)` loop of `generate_grid`. -/
def attemptsLoop (size : Nat) (target : Int) (dm : String) (ao : Bool)
    (mode : String) (dirs : List (String × Int × Int)) (seedVal : Option Int) :
    Nat → RNG → Except PyError Puzzle × RNG
  | 0, rng => (.error (.runtimeError failMsg), rng)
  | n + 1, rng =>
    match attemptOnce size target dm ao mode dirs seedVal rng with
    | (.success p, rng') => (.ok p, rng')
    | (.fail, rng') => attemptsLoop size target dm ao mode dirs seedVal n rng'
    | (.fatal e, rng') => (.error e, rng')

/-- `GameEngine.generate_grid`.  `requested_count` is either an exact count
or a `(min, max)` pair, drawn once via `randint` before the retry loop. -/
def generate_grid (size : Nat) (requested_count : Int ⊕ (Int × Int))
    (distribution_mode : String) (allow_overlap : Bool)
    (directions_mode : String) (seedVal : Option Int) (rng : RNG) :
    Except PyError Puzzle × RNG :=
  match requested_count with
  | .inl n =>
    attemptsLoop size n distribution_mode allow_overlap directions_mode
      (getAllowedDirections directions_mode) seedVal maxRetries rng
  | .inr (mn, mx) =>
    match randint mn mx rng with
    | .error e => (.error e, rng)
    | .ok (t, rng') =>
      attemptsLoop size t distribution_mode allow_overlap directions_mode
        (getAllowedDirections directions_mode) seedVal maxRetries rng'

/-- `GameEngine.__init__`: with a seed, the process-global `random` stream
is replaced by a stream derived deterministically from the seed
(`random.seed`), and the integer form of the seed is stored; with no seed
the global stream is left untouched.  `seedStream` abstracts CPython's
Mersenne-Twister seeding; `md5hash` abstracts the truncated-MD5 conversion
of string seeds. -/
def engineInit (seedStream : Int → RNG) (md5hash : String → Int)
    (globalRng : RNG) (seed : Option (Int ⊕ String)) : RNG × Option Int :=
  match seed with
  | none => (globalRng, none)
  | some (.inl n) => (seedStream n, some n)
  | some (.inr s) => (seedStream (md5hash s), some (md5hash s))

/-- Construct a fresh engine with a seed and immediately generate: the
scenario of a single independent run. -/
def freshEngineRun (seedStream : Int → RNG) (md5hash : String → Int)
    (prior : RNG) (seed : Int ⊕ String) (size : Nat)
    (req : Int ⊕ (Int × Int)) (dm : String) (ao : Bool) (mode : String) :
    Except PyError Puzzle × RNG :=
  let (g, sv) := engineInit seedStream md5hash prior (some seed)
  generate_grid size req dm ao mode sv g

/-- The integer form of a seed stored in `self.seed` (string seeds are
hashed). -/
def seedInt (md5hash : String → Int) : Int ⊕ String → Int
  | .inl n => n
  | .inr s => md5hash s

/-- Engine 1 generates twice in a row, nothing happening in between. -/
def sequentialSecondRun (seedStream : Int → RNG) (md5hash : String → Int)
    (prior : RNG) (s1 : Int ⊕ String) (size : Nat) (req : Int ⊕ (Int × Int))
    (dm : String) (ao : Bool) (mode : String) : Except PyError Puzzle × RNG :=
  let (g1, sv1) := engineInit seedStream md5hash prior (some s1)
  let (_, g2) := generate_grid size req dm ao mode sv1 g1
  generate_grid size req dm ao mode sv1 g2

/-- Engine 1 generates; a second engine is constructed with seed `s2`
(running `random.seed(s2)` on the shared global stream); engine 1 then
generates again. -/
def interleavedSecondRun (seedStream : Int → RNG) (md5hash : String → Int)
    (prior : RNG) (s1 s2 : Int ⊕ String) (size : Nat) (req : Int ⊕ (Int × Int))
    (dm : String) (ao : Bool) (mode : String) : Except PyError Puzzle × RNG :=
  let (g1, sv1) := engineInit seedStream md5hash prior (some s1)
  let (_, g2) := generate_grid size req dm ao mode sv1 g1
  let (g3, _) := engineInit seedStream md5hash g2 (some s2)
  generate_grid size req dm ao mode sv1 g3

/-! Predicates used by the invariants, and concrete fixtures used by
witnesses and counterexamples. -/

/-- The canonical (sorted-cells) keys of a match list. -/
def matchKeys (ms : List Match) : List (List (Int × Int)) :=
  ms.map fun m => normalizeMatch m.cells

/-- Number of still-empty cells of a grid. -/
def noneCount (g : Grid) : Nat :=
  (g.map fun row => row.countP fun c => decide (c = none)).sum

/-- Well-formedness: an `N×N` grid. -/
def Grid.wf (g : Grid) (size : Nat) : Prop :=
  g.length = size ∧ ∀ row ∈ g, row.length = size

/-- A coordinate lies inside the grid. -/
def inBounds (size : Nat) (x : Int × Int) : Prop :=
  0 ≤ x.1 ∧ x.1 < (size : Int) ∧ 0 ≤ x.2 ∧ x.2 < (size : Int)

/-- Two matches share no cell. -/
def cellsDisjoint (m1 m2 : Match) : Prop :=
  ∀ x ∈ m1.cells, x ∉ m2.cells

/-- `g'` preserves every already-written letter of `g`. -/
def gridExtends (g g' : Grid) : Prop :=
  ∀ r c ch, natGet g r c = some ch → natGet g' r c = some ch

/-- A well-formed direction vector: components in `{-1,0,1}`, not both 0. -/
def dirOk (d : String × Int × Int) : Prop :=
  (d.2.1 = -1 ∨ d.2.1 = 0 ∨ d.2.1 = 1) ∧
    (d.2.2 = -1 ∨ d.2.2 = 0 ∨ d.2.2 = 1) ∧ ¬(d.2.1 = 0 ∧ d.2.2 = 0)

instance : DecidablePred dirOk := fun d =>
  inferInstanceAs (Decidable ((d.2.1 = -1 ∨ d.2.1 = 0 ∨ d.2.1 = 1) ∧
    (d.2.2 = -1 ∨ d.2.2 = 0 ∨ d.2.2 = 1) ∧ ¬(d.2.1 = 0 ∧ d.2.2 = 0)))

instance {ε α : Type} [DecidableEq ε] [DecidableEq α] :
    DecidableEq (Except ε α) := fun a b =>
  match a, b with
  | .ok x, .ok y =>
    if h : x = y then .isTrue (by rw [h]) else .isFalse (by intro hc; cases hc; exact h rfl)
  | .error x, .error y =>
    if h : x = y then .isTrue (by rw [h]) else .isFalse (by intro hc; cases hc; exact h rfl)
  | .ok _, .error _ => .isFalse (by intro hc; cases hc)
  | .error _, .ok _ => .isFalse (by intro hc; cases hc)

/-- A placed word instance, as recorded by `_place_word`: its cells follow
one allowed direction from its start, stay in bounds, and the grid holds
the target word's letters on them. -/
structure GoodMatch (size : Nat) (dirs : List (String × Int × Int))
    (g : Grid) (m : Match) : Prop where
  hdir : ∃ dr dc, (m.dir, dr, dc) ∈ dirs ∧
    m.cells = pathCells m.start.1 m.start.2 dr dc TARGET_WORD.length
  hbounds : ∀ x ∈ m.cells, inBounds size x
  hword : ∀ i : Nat, i < TARGET_WORD.length →
    gridGet g ((m.cells.getD i (0, 0)).1) ((m.cells.getD i (0, 0)).2) =
      some (TARGET_WORD.getD i 'F')

/-- The write loop of `_place_word` over an arbitrary (index, letter) list;
`writeWord g row col dr dc = writeFold row col dr dc TARGET_WORD.enum g`. -/
def writeFold (row col dr dc : Int) (l : List (Nat × Char)) (g : Grid) : Grid :=
  l.foldl (fun g p => gridSet g (row + dr * p.1) (col + dc * p.1) p.2) g

/-- A stream that repeats one value forever. -/
def constStream (k : Nat) : RNG := ⟨fun _ => k, 0⟩

/-- The 4×4 grid whose four rows each read `F,U,C,K`. -/
def fuckGrid : Grid :=
  [[some 'F', some 'U', some 'C', some 'K'],
   [some 'F', some 'U', some 'C', some 'K'],
   [some 'F', some 'U', some 'C', some 'K'],
   [some 'F', some 'U', some 'C', some 'K']]

/-- A concrete seed-to-stream model instance for the counterexample: the
seed determines the repeated stream value. -/
def c9SeedStream : Int → RNG := fun s => ⟨fun _ => s.toNat, 0⟩

/-- Stream driving one no-overlap placement at (0,0) heading E, then an
all-`F` fill. -/
def c4Stream : RNG := ⟨fun n => if n = 2 then 2 else 0, 0⟩

/-- The puzzle generated by `c4Stream` (size 4, one word, no overlap). -/
def c4Puzzle : Puzzle :=
  ⟨[[some 'F', some 'U', some 'C', some 'K'],
    [some 'F', some 'F', some 'F', some 'F'],
    [some 'F', some 'F', some 'F', some 'F'],
    [some 'F', some 'F', some 'F', some 'F']],
   1,
   [⟨(0, 0), "E", [(0, 0), (0, 1), (0, 2), (0, 3)]⟩],
   ⟨4, "even", false, "all", none⟩⟩

/-- The all-`F` puzzle generated from `constStream 0` with count 0. -/
def c1Puzzle : Puzzle :=
  ⟨List.replicate 4 (List.replicate 4 (some 'F')), 0, [],
   ⟨4, "even", true, "all", none⟩⟩

/-- The all-`F` puzzle generated from `constStream 0` with count 0. -/
def c8Puzzle : Puzzle :=
  ⟨List.replicate 4 (List.replicate 4 (some 'F')), 0, [],
   ⟨4, "even", true, "all", none⟩⟩

/-- The all-`U` puzzle generated from `constStream 1` with range (0,0). -/
def c7Puzzle : Puzzle :=
  ⟨List.replicate 4 (List.replicate 4 (some 'U')), 0, [],
   ⟨4, "even", true, "all", none⟩⟩

/-! ### Basic lemmas about the random primitives -/

theorem randint_ok_bounds {a b v : Int} {g g' : RNG}
    (h : randint a b g = .ok (v, g')) : a ≤ v ∧ v ≤ b := by
  unfold randint at h
  by_cases hab : b < a
  · rw [if_pos hab] at h; cases h
  · rw [if_neg hab] at h
    simp only [RNG.next, Except.ok.injEq, Prod.mk.injEq] at h
    have hw : (0 : Int) < b - a + 1 := by omega
    have h1 : 0 ≤ ((g.stream g.pos : Nat) : Int) % (b - a + 1) :=
      Int.emod_nonneg _ (by omega)
    have h2 : ((g.stream g.pos : Nat) : Int) % (b - a + 1) < b - a + 1 :=
      Int.emod_lt_of_pos _ hw
    omega

theorem randint_ok_of_le {a b : Int} (hab : a ≤ b) (g : RNG) :
    randint a b g =
      .ok (a + ((g.stream g.pos : Nat) : Int) % (b - a + 1), ⟨g.stream, g.pos + 1⟩) := by
  unfold randint
  rw [if_neg (not_lt.mpr hab)]
  rfl

theorem getD_or_default {α : Type} :
    ∀ (l : List α) (i : Nat) (d : α), l.getD i d ∈ l ∨ l.getD i d = d
  | [], _, _ => .inr rfl
  | a :: _, 0, _ => .inl (List.mem_cons_self _ _)
  | a :: as, i + 1, d =>
    match getD_or_default as i d with
    | .inl h => .inl (List.mem_cons_of_mem a h)
    | .inr h => .inr h

theorem choice_ok_mem {α : Type} {l : List α} {x : α} {g g' : RNG}
    (h : choice l g = .ok (x, g')) : x ∈ l := by
  cases l with
  | nil => cases h
  | cons a as =>
    unfold choice at h
    simp only [RNG.next, Except.ok.injEq, Prod.mk.injEq] at h
    rcases getD_or_default (a :: as) (g.stream g.pos % (a :: as).length) a with hm | hd
    · rw [← h.1]; exact hm
    · rw [← h.1, hd]; exact List.mem_cons_self _ _

theorem choice_cons_ok {α : Type} (a : α) (as : List α) (g : RNG) :
    choice (a :: as) g =
      .ok ((a :: as).getD (g.stream g.pos % (a :: as).length) a,
        ⟨g.stream, g.pos + 1⟩) := rfl

/-! ### List update lemmas -/

theorem getD_set {α : Type} :
    ∀ (l : List α) (i j : Nat) (a d : α),
      (l.set i a).getD j d = if i = j ∧ j < l.length then a else l.getD j d
  | [], i, j, a, d => by simp
  | x :: xs, 0, 0, a, d => by simp
  | x :: xs, 0, j + 1, a, d => by simp
  | x :: xs, i + 1, 0, a, d => by simp
  | x :: xs, i + 1, j + 1, a, d => by
    simp only [List.set, List.getD_cons_succ, List.length_cons]
    rw [getD_set xs i j a d]
    by_cases h : i = j ∧ j < xs.length
    · rw [if_pos h, if_pos ⟨by omega, by omega⟩]
    · rw [if_neg h, if_neg (by omega)]

theorem countP_set {α : Type} (p : α → Bool) :
    ∀ (l : List α) (i : Nat) (a b : α), i < l.length →
      (l.set i a).countP p + (if p (l.getD i b) then 1 else 0) =
        l.countP p + (if p a then 1 else 0)
  | [], i, a, b, h => by simp at h
  | x :: xs, 0, a, b, h => by
    simp only [List.set, List.getD_cons_zero, List.countP_cons]
    omega
  | x :: xs, i + 1, a, b, h => by
    simp only [List.set, List.getD_cons_succ, List.countP_cons]
    have := countP_set p xs i a b (by simpa using h)
    omega

theorem sum_map_set {α : Type} (f : α → Nat) :
    ∀ (l : List α) (i : Nat) (a b : α), i < l.length →
      ((l.set i a).map f).sum + f (l.getD i b) = (l.map f).sum + f a
  | [], i, a, b, h => by simp at h
  | x :: xs, 0, a, b, h => by
    simp only [List.set, List.getD_cons_zero, List.map_cons, List.sum_cons]
    omega
  | x :: xs, i + 1, a, b, h => by
    simp only [List.set, List.getD_cons_succ, List.map_cons, List.sum_cons]
    have := sum_map_set f xs i a b (by simpa using h)
    omega

/-! ### Direction-set lemmas -/

theorem dirs_dirOk (mode : String) :
    ∀ d ∈ getAllowedDirections mode, dirOk d := by
  unfold getAllowedDirections
  split
  · decide
  · split
    · decide
    · decide

theorem dirs_ne_nil (mode : String) : getAllowedDirections mode ≠ [] := by
  unfold getAllowedDirections
  split
  · decide
  · split
    · decide
    · decide

theorem dirs_sub_directions (mode : String) :
    ∀ d ∈ getAllowedDirections mode, d ∈ DIRECTIONS := by
  unfold getAllowedDirections
  split
  · decide
  · split
    · decide
    · decide

/-! ### Scanner deduplication lemmas -/

theorem isDuplicateMatch_iff (n : List (Int × Int)) (ms : List Match) :
    isDuplicateMatch n ms = true ↔ n ∈ matchKeys ms := by
  simp [isDuplicateMatch, matchKeys]

theorem scanStep_eq (g : Grid) (size : Nat) (acc : List Match) (row col : Nat)
    (dirName : String) (dr dc : Int) :
    scanStep g size acc (row, col, dirName, dr, dc) =
      match checkWordAtPosition g row col dr dc size with
      | some cells =>
        if isDuplicateMatch (normalizeMatch cells) acc then acc
        else acc ++ [⟨((row : Int), (col : Int)), dirName, cells⟩]
      | none => acc := rfl

theorem scanStep_keys_nodup {g : Grid} {size : Nat} {acc : List Match}
    (t : Nat × Nat × String × Int × Int) (h : (matchKeys acc).Nodup) :
    (matchKeys (scanStep g size acc t)).Nodup := by
  obtain ⟨row, col, dirName, dr, dc⟩ := t
  rw [scanStep_eq]
  cases hc : checkWordAtPosition g row col dr dc size with
  | none => exact h
  | some cells =>
    by_cases hdup : isDuplicateMatch (normalizeMatch cells) acc = true
    · simp only [hdup, if_true]; exact h
    · simp only [hdup, Bool.false_eq_true, if_false]
      have hnot : normalizeMatch cells ∉ matchKeys acc := fun hmem =>
        hdup ((isDuplicateMatch_iff _ _).mpr hmem)
      simp only [matchKeys, List.map_append, List.map_cons, List.map_nil] at h hnot ⊢
      rw [List.nodup_append]
      exact ⟨h, List.nodup_singleton _, by simpa using hnot⟩

theorem scanStep_keys_sub {g : Grid} {size : Nat} {acc : List Match}
    (t : Nat × Nat × String × Int × Int) :
    matchKeys acc ⊆ matchKeys (scanStep g size acc t) := by
  obtain ⟨row, col, dirName, dr, dc⟩ := t
  rw [scanStep_eq]
  cases hc : checkWordAtPosition g row col dr dc size with
  | none => exact fun x hx => hx
  | some cells =>
    by_cases hdup : isDuplicateMatch (normalizeMatch cells) acc = true
    · simp only [hdup, if_true]; exact fun x hx => hx
    · simp only [hdup, Bool.false_eq_true, if_false, matchKeys, List.map_append]
      exact List.subset_append_left _ _

theorem scanStep_key_mem {g : Grid} {size : Nat} {acc : List Match}
    {row col : Nat} (dirName : String) {dr dc : Int} {cells : List (Int × Int)}
    (hc : checkWordAtPosition g row col dr dc size = some cells) :
    normalizeMatch cells ∈ matchKeys (scanStep g size acc (row, col, dirName, dr, dc)) := by
  rw [scanStep_eq, hc]
  by_cases hdup : isDuplicateMatch (normalizeMatch cells) acc = true
  · simp only [hdup, if_true]
    exact (isDuplicateMatch_iff _ _).mp hdup
  · simp only [hdup, Bool.false_eq_true, if_false]
    simp [matchKeys]

theorem scanFold_keys_nodup (g : Grid) (size : Nat) :
    ∀ (ts : List (Nat × Nat × String × Int × Int)) (acc : List Match),
      (matchKeys acc).Nodup →
      (matchKeys (ts.foldl (scanStep g size) acc)).Nodup
  | [], _, h => h
  | t :: ts, acc, h =>
    scanFold_keys_nodup g size ts (scanStep g size acc t) (scanStep_keys_nodup t h)

theorem scanFold_keys_sub (g : Grid) (size : Nat) :
    ∀ (ts : List (Nat × Nat × String × Int × Int)) (acc : List Match),
      matchKeys acc ⊆ matchKeys (ts.foldl (scanStep g size) acc)
  | [], _ => fun _ hx => hx
  | t :: ts, acc => fun x hx =>
    scanFold_keys_sub g size ts (scanStep g size acc t) (scanStep_keys_sub t hx)

theorem scanFold_complete (g : Grid) (size : Nat)
    (ts : List (Nat × Nat × String × Int × Int)) :
    ∀ (acc : List Match) (row col : Nat) (dirName : String) (dr dc : Int)
      (cells : List (Int × Int)),
      (row, col, dirName, dr, dc) ∈ ts →
      checkWordAtPosition g row col dr dc size = some cells →
      normalizeMatch cells ∈ matchKeys (ts.foldl (scanStep g size) acc) := by
  induction ts with
  | nil =>
    intro acc row col dirName dr dc cells hmem _
    exact absurd hmem (List.not_mem_nil _)
  | cons t ts ih =>
    intro acc row col dirName dr dc cells hmem hc
    rw [List.foldl_cons]
    rcases List.mem_cons.mp hmem with heq | hmem'
    · subst heq
      exact scanFold_keys_sub g size ts _ (scanStep_key_mem dirName hc)
    · exact ih _ _ _ _ _ _ _ hmem' hc

theorem scan_grid_keys_nodup (g : Grid) (mode : String) :
    (matchKeys (scan_grid g mode).2).Nodup := by
  unfold scan_grid
  exact scanFold_keys_nodup g g.length _ [] List.Pairwise.nil

theorem scan_grid_fst (g : Grid) (mode : String) :
    (scan_grid g mode).1 = (scan_grid g mode).2.length := rfl

/-! ### C5: scanning never returns two matches with the same canonical key -/

/-- C5: for every grid and every directions mode, no two matches returned
by `scan_grid` share the same canonical key (their cells sorted
lexicographically): every pair of distinct returned matches differs in its
sorted cell list. -/
theorem C5_scan_no_duplicate_keys (g : Grid) (mode : String) :
    (scan_grid g mode).2.Pairwise
      (fun m1 m2 => normalizeMatch m1.cells ≠ normalizeMatch m2.cells) := by
  have h := scan_grid_keys_nodup g mode
  unfold matchKeys at h
  rw [List.Nodup, List.pairwise_map] at h
  exact h

/-! ### C6: the all-FUCK-rows grid -/

/-- C6 counterexample: scanning the 4×4 grid whose rows each read F,U,C,K
with all 8 directions does NOT report 4 matches (the claimed count). -/
theorem C6_counterexample : ¬((scan_grid fuckGrid "all").1 = 4) := by decide

/-- C6 amended: that scan reports exactly 6 deduplicated matches (the four
East row reads plus the two main diagonals, (0,0)→SE and (3,0)→NE). -/
theorem C6_amended : (scan_grid fuckGrid "all").1 = 6 := by decide

/-! ### C2: determinism of a fresh seeded engine -/

/-- C2: for every model of the seeding function, every seed (integer or
string) and every parameter set, two independent runs that each construct a
fresh engine with that seed (replacing the global stream) and then call
`generate_grid` produce identical results — grids, true counts and match
lists — regardless of the prior state of the global stream in each run. -/
theorem C2_determinism (seedStream : Int → RNG) (md5hash : String → Int)
    (prior1 prior2 : RNG) (seed : Int ⊕ String) (size : Nat)
    (req : Int ⊕ (Int × Int)) (dm : String) (ao : Bool) (mode : String) :
    (freshEngineRun seedStream md5hash prior1 seed size req dm ao mode).1 =
      (freshEngineRun seedStream md5hash prior2 seed size req dm ao mode).1 := by
  cases seed <;> rfl

/-! ### C9: the pseudo-random stream is global, not instance-owned -/

/-- C9 counterexample: with a concrete seed-stream model, constructing a
second engine with seed 1 between two `generate_grid` calls of an engine
seeded with 0 changes the second result of the first engine: the claim
that interleaved construction does not affect subsequent outputs is false. -/
theorem C9_counterexample :
    (sequentialSecondRun c9SeedStream (fun _ => 0) (constStream 0) (.inl 0)
        4 (.inl 0) "even" true "all").1 ≠
      (interleavedSecondRun c9SeedStream (fun _ => 0) (constStream 0) (.inl 0)
        (.inl 1) 4 (.inl 0) "even" true "all").1 := by
  decide

/-- C9 amended: the stream is process-global and shared: constructing a
second engine with seed `s2` reseeds that shared stream, so the first
engine's next `generate_grid` behaves exactly as if the global stream had
just been seeded with `s2` (rather than continuing its own stream). -/
theorem C9_amended (seedStream : Int → RNG) (md5hash : String → Int)
    (prior : RNG) (s1 s2 : Int ⊕ String) (size : Nat)
    (req : Int ⊕ (Int × Int)) (dm : String) (ao : Bool) (mode : String) :
    interleavedSecondRun seedStream md5hash prior s1 s2 size req dm ao mode =
      generate_grid size req dm ao mode (some (seedInt md5hash s1))
        (seedStream (seedInt md5hash s2)) := by
  cases s1 <;> cases s2 <;> rfl

/-! ### C10: an inverted (min,max) range raises ValueError, uncaught -/

/-- C10: when `requested_count` is a pair with `min > max`, `generate_grid`
raises `ValueError` from the `randint` draw itself, before any attempt and
outside the retry loop's `try`: the error is not converted into the
terminal `RuntimeError`, and no randomness is consumed. -/
theorem C10_empty_range_valueerror (size : Nat) (dm : String) (ao : Bool)
    (mode : String) (sv : Option Int) (rng : RNG) {mn mx : Int}
    (h : mx < mn) :
    generate_grid size (.inr (mn, mx)) dm ao mode sv rng =
      (.error .valueError, rng) := by
  have hr : randint mn mx rng = .error .valueError := by
    unfold randint; exact if_pos h
  simp only [generate_grid, hr]

/-- C10 witness at `(min, max) = (1, 0)`. -/
theorem C10_witness :
    generate_grid 4 (.inr (1, 0)) "even" true "all" none (constStream 0) =
      (.error .valueError, constStream 0) :=
  C10_empty_range_valueerror 4 "even" true "all" none (constStream 0) (by decide)

/-! ### Analysis of a successful attempt and the retry loop -/

theorem attemptOnce_success {size : Nat} {target : Int} {dm : String}
    {ao : Bool} {mode : String} {dirs : List (String × Int × Int)}
    {sv : Option Int} {rng rng' : RNG} {p : Puzzle}
    (h : attemptOnce size target dm ao mode dirs sv rng = (.success p, rng')) :
    p.true_count = target ∧ p.metadata = ⟨size, dm, ao, mode, sv⟩ ∧
      p.matches' = (scan_grid p.grid mode).2 ∧
      ((scan_grid p.grid mode).1 : Int) = target := by
  unfold attemptOnce at h
  split at h
  · simp at h
  · simp at h
  · rename_i g1 ms1 rng1 hpw
    split at h
    · simp at h
    · simp at h
    · rename_i g2 rng2 hfill
      replace h :
          (if ((scan_grid g2 mode).1 : Int) = target then
            (AttemptOutcome.success
              ⟨g2, target, (scan_grid g2 mode).2, ⟨size, dm, ao, mode, sv⟩⟩, rng2)
          else (AttemptOutcome.fail, rng2)) = (.success p, rng') := h
      split at h
      · rename_i hguard
        simp only [Prod.mk.injEq, AttemptOutcome.success.injEq] at h
        rw [← h.1]
        exact ⟨rfl, rfl, rfl, hguard⟩
      · simp at h

theorem attemptsLoop_ok {P : Puzzle → Prop} {size : Nat} {target : Int}
    {dm : String} {ao : Bool} {mode : String}
    {dirs : List (String × Int × Int)} {sv : Option Int}
    (hstep : ∀ rng p rng',
      attemptOnce size target dm ao mode dirs sv rng = (.success p, rng') → P p) :
    ∀ (n : Nat) (rng : RNG) (p : Puzzle) (rng' : RNG),
      attemptsLoop size target dm ao mode dirs sv n rng = (.ok p, rng') → P p := by
  intro n
  induction n with
  | zero =>
    intro rng p rng' h
    unfold attemptsLoop at h
    simp at h
  | succ n ih =>
    intro rng p rng' h
    unfold attemptsLoop at h
    rcases ha : attemptOnce size target dm ao mode dirs sv rng with ⟨out, rng1⟩
    rw [ha] at h
    cases out with
    | success p0 =>
      simp only [Prod.mk.injEq, Except.ok.injEq] at h
      exact h.1 ▸ hstep rng p0 rng1 ha
    | fail => exact ih _ _ _ h
    | fatal e => simp at h

theorem generate_grid_inl_ok {P : Puzzle → Prop} {size : Nat} {n : Int}
    {dm : String} {ao : Bool} {mode : String} {sv : Option Int}
    (hstep : ∀ rng p rng',
      attemptOnce size n dm ao mode (getAllowedDirections mode) sv rng =
        (.success p, rng') → P p)
    {rng : RNG} {p : Puzzle}
    (h : (generate_grid size (.inl n) dm ao mode sv rng).1 = .ok p) : P p := by
  rcases hl : attemptsLoop size n dm ao mode (getAllowedDirections mode) sv
    maxRetries rng with ⟨res, rng1⟩
  simp only [generate_grid] at h
  rw [hl] at h
  dsimp at h
  subst h
  exact attemptsLoop_ok hstep maxRetries rng p rng1 hl

theorem generate_grid_ok {P : Puzzle → Prop} {size : Nat} {dm : String}
    {ao : Bool} {mode : String} {sv : Option Int}
    (hstep : ∀ (target : Int) rng p rng',
      attemptOnce size target dm ao mode (getAllowedDirections mode) sv rng =
        (.success p, rng') → P p) :
    ∀ (req : Int ⊕ (Int × Int)) (rng : RNG) (p : Puzzle),
      (generate_grid size req dm ao mode sv rng).1 = .ok p → P p := by
  intro req rng p h
  cases req with
  | inl n => exact generate_grid_inl_ok (hstep n) h
  | inr mnmx =>
    obtain ⟨mn, mx⟩ := mnmx
    simp only [generate_grid] at h
    cases hr : randint mn mx rng with
    | error e => rw [hr] at h; simp at h
    | ok tr =>
      obtain ⟨t, rng1⟩ := tr
      simp only [hr] at h
      rcases hl : attemptsLoop size t dm ao mode (getAllowedDirections mode) sv
        maxRetries rng1 with ⟨res, rng2⟩
      rw [hl] at h
      dsimp at h
      subst h
      exact attemptsLoop_ok (hstep t) maxRetries rng1 p rng2 hl

/-! ### C1: the round-trip consistency invariant -/

/-- C1: every puzzle returned by `generate_grid` (any size, count,
distribution mode, overlap flag and directions mode) has as many recorded
matches as its `true_count`, and an independent `scan_grid` pass over its
grid with the puzzle's own directions mode counts exactly `true_count`. -/
theorem C1_roundtrip (size : Nat) (req : Int ⊕ (Int × Int)) (dm : String)
    (ao : Bool) (mode : String) (sv : Option Int) (rng : RNG) (p : Puzzle)
    (h : (generate_grid size req dm ao mode sv rng).1 = .ok p) :
    ((p.matches'.length : Int) = p.true_count) ∧
      ((scan_grid p.grid p.metadata.directions_mode).1 : Int) = p.true_count := by
  refine generate_grid_ok
    (P := fun q => ((q.matches'.length : Int) = q.true_count) ∧
      ((scan_grid q.grid q.metadata.directions_mode).1 : Int) = q.true_count)
    ?_ req rng p h
  intro target rng0 p0 rng1 ha
  obtain ⟨h1, h2, h3, h4⟩ := attemptOnce_success ha
  have hmode : p0.metadata.directions_mode = mode := by rw [h2]
  rw [hmode, h1, h3]
  refine ⟨?_, h4⟩
  rw [← scan_grid_fst]
  exact h4

/-- C1 witness: a concrete successful generation. -/
theorem C1_witness :
    ((c1Puzzle.matches'.length : Int) = c1Puzzle.true_count) ∧
      ((scan_grid c1Puzzle.grid c1Puzzle.metadata.directions_mode).1 : Int) =
        c1Puzzle.true_count :=
  C1_roundtrip 4 (.inl 0) "even" true "all" none (constStream 0) c1Puzzle
    (by decide)

/-! ### C8: the zero-count case -/

/-- C8: if `generate_grid` is called with `requested_count = 0` and returns
a puzzle, that puzzle has `true_count = 0`, an empty match list, and
`scan_grid` on its grid with the same directions mode counts 0. -/
theorem C8_zero_count (size : Nat) (dm : String) (ao : Bool) (mode : String)
    (sv : Option Int) (rng : RNG) (p : Puzzle)
    (h : (generate_grid size (.inl 0) dm ao mode sv rng).1 = .ok p) :
    p.true_count = 0 ∧ p.matches' = [] ∧
      (scan_grid p.grid p.metadata.directions_mode).1 = 0 := by
  refine generate_grid_inl_ok
    (P := fun q => q.true_count = 0 ∧ q.matches' = [] ∧
      (scan_grid q.grid q.metadata.directions_mode).1 = 0) ?_ h
  intro rng0 p0 rng1 ha
  obtain ⟨h1, h2, h3, h4⟩ := attemptOnce_success ha
  have hmode : p0.metadata.directions_mode = mode := by rw [h2]
  have hcount : (scan_grid p0.grid mode).1 = 0 := by exact_mod_cast h4
  have hlen : (scan_grid p0.grid mode).2.length = 0 := by
    rw [← scan_grid_fst]; exact hcount
  refine ⟨h1, ?_, by rw [hmode]; exact hcount⟩
  rw [h3]
  exact List.length_eq_zero.mp hlen

/-- C8 witness: a concrete successful zero-count generation. -/
theorem C8_witness :
    c8Puzzle.true_count = 0 ∧ c8Puzzle.matches' = [] ∧
      (scan_grid c8Puzzle.grid c8Puzzle.metadata.directions_mode).1 = 0 :=
  C8_zero_count 4 "even" true "all" none (constStream 0) c8Puzzle (by decide)

/-! ### C7: ranged counts are drawn once and respected -/

/-- C7: with `requested_count = (min, max)` and `min ≤ max`, the target is
drawn by a single `randint` call consuming one draw before the first
attempt, lies in `[min, max]`, and the whole retry loop runs with that one
fixed target; consequently every successfully returned puzzle has
`true_count` within `[min, max]`. -/
theorem C7_range_draw (mn mx : Int) (hle : mn ≤ mx) (size : Nat)
    (dm : String) (ao : Bool) (mode : String) (sv : Option Int) (rng : RNG) :
    (∃ t rng', randint mn mx rng = .ok (t, rng') ∧ mn ≤ t ∧ t ≤ mx ∧
      generate_grid size (.inr (mn, mx)) dm ao mode sv rng =
        attemptsLoop size t dm ao mode (getAllowedDirections mode) sv
          maxRetries rng') ∧
    ∀ p, (generate_grid size (.inr (mn, mx)) dm ao mode sv rng).1 = .ok p →
      mn ≤ p.true_count ∧ p.true_count ≤ mx := by
  have hr := randint_ok_of_le hle rng
  have hb := randint_ok_bounds hr
  constructor
  · exact ⟨_, _, hr, hb.1, hb.2, by simp only [generate_grid, hr]⟩
  · intro p hp
    simp only [generate_grid, hr] at hp
    rcases hl : attemptsLoop size (mn + ((rng.stream rng.pos : Nat) : Int) % (mx - mn + 1))
        dm ao mode (getAllowedDirections mode) sv maxRetries ⟨rng.stream, rng.pos + 1⟩
      with ⟨res, rng2⟩
    rw [hl] at hp
    dsimp at hp
    subst hp
    have ht := attemptsLoop_ok
      (P := fun p => p.true_count = mn + ((rng.stream rng.pos : Nat) : Int) % (mx - mn + 1))
      (fun rng p rng' ha => (attemptOnce_success ha).1) maxRetries _ p rng2 hl
    constructor
    · rw [ht]; exact hb.1
    · rw [ht]; exact hb.2

/-- C7 witness: a concrete ranged generation with range (0, 0). -/
theorem C7_witness :
    (0 : Int) ≤ c7Puzzle.true_count ∧ c7Puzzle.true_count ≤ 0 :=
  (C7_range_draw 0 0 (by decide) 4 "even" true "all" none (constStream 1)).2
    c7Puzzle (by decide)

/-! ### Grid well-formedness and cell-update lemmas -/

theorem row_length {g : Grid} {size : Nat} (hwf : Grid.wf g size) {i : Nat}
    (hi : i < size) : (g.getD i []).length = size := by
  have hil : i < g.length := by rw [hwf.1]; exact hi
  rw [List.getD_eq_getElem _ _ hil]
  exact hwf.2 _ (List.getElem_mem hil)

theorem wf_createEmptyGrid (size : Nat) : Grid.wf (createEmptyGrid size) size := by
  constructor
  · simp [createEmptyGrid]
  · intro row hrow
    rw [List.eq_of_mem_replicate hrow]
    simp

theorem wf_gridSet {g : Grid} {size : Nat} (hwf : Grid.wf g size)
    {r : Int} (c : Int) (v : Char) (hr : r.toNat < size) :
    Grid.wf (gridSet g r c v) size := by
  constructor
  · rw [gridSet, List.length_set, hwf.1]
  · intro row hrow
    rcases List.mem_or_eq_of_mem_set hrow with hm | he
    · exact hwf.2 row hm
    · rw [he, List.length_set]
      exact row_length hwf hr

theorem natGet_gridSet_eq {g : Grid} {size : Nat} (hwf : Grid.wf g size)
    {r c : Int} (v : Char) (hr : r.toNat < size) (hc : c.toNat < size) :
    natGet (gridSet g r c v) r.toNat c.toNat = some v := by
  unfold natGet gridSet
  rw [getD_set, if_pos ⟨rfl, by rw [hwf.1]; exact hr⟩, getD_set,
    if_pos ⟨rfl, by rw [row_length hwf hr]; exact hc⟩]

theorem natGet_gridSet_ne {g : Grid} {r c : Int} (v : Char) {rn cn : Nat}
    (hne : ¬(r.toNat = rn ∧ c.toNat = cn)) :
    natGet (gridSet g r c v) rn cn = natGet g rn cn := by
  unfold natGet gridSet
  rw [getD_set]
  by_cases h1 : r.toNat = rn ∧ rn < g.length
  · rw [if_pos h1, getD_set, if_neg]
    · rw [h1.1]
    · intro h2
      exact hne ⟨h1.1, h2.1⟩
  · rw [if_neg h1]

theorem noneCount_gridSet {g : Grid} {size : Nat} (hwf : Grid.wf g size)
    {r c : Int} (v : Char) (hr : r.toNat < size) (hc : c.toNat < size)
    (hnone : natGet g r.toNat c.toNat = none) :
    noneCount (gridSet g r c v) + 1 = noneCount g := by
  have hrl : r.toNat < g.length := by rw [hwf.1]; exact hr
  have hcl : c.toNat < (g.getD r.toNat []).length := by
    rw [row_length hwf hr]; exact hc
  have hrow := countP_set (fun x => decide (x = none)) (g.getD r.toNat [])
    c.toNat (some v) none hcl
  have hsum := sum_map_set (fun row => row.countP fun x => decide (x = none))
    g r.toNat ((g.getD r.toNat []).set c.toNat (some v)) [] hrl
  unfold natGet at hnone
  rw [hnone] at hrow
  rw [show (if ((fun (x : Cell) => decide (x = none)) none) = true then (1:Nat) else 0) = 1
    from rfl] at hrow
  rw [show (if ((fun (x : Cell) => decide (x = none)) (some v)) = true then (1:Nat) else 0) = 0
    from rfl] at hrow
  unfold noneCount gridSet
  dsimp only at hsum
  omega

/-! ### The occupancy check under `allow_overlap = false` -/

theorem canPlaceFrom_false_none {g : Grid} {row col dr dc : Int} :
    ∀ (l : List (Nat × Char)), canPlaceFrom g row col dr dc false l = true →
      ∀ pr ∈ l, gridGet g (row + dr * pr.1) (col + dc * pr.1) = none := by
  intro l
  induction l with
  | nil => intro _ pr hpr; exact absurd hpr (List.not_mem_nil _)
  | cons hd tl ih =>
    obtain ⟨i, letter⟩ := hd
    intro h pr hpr
    simp only [canPlaceFrom] at h
    cases hg : gridGet g (row + dr * i) (col + dc * i) with
    | none =>
      rw [hg] at h
      rcases List.mem_cons.mp hpr with heq | hmem
      · rw [heq]; exact hg
      · exact ih h pr hmem
    | some x =>
      rw [hg] at h
      simp at h

/-! ### Direction geometry -/

theorem path_toNat_ne {row col dr dc : Int}
    (hdr : dr = -1 ∨ dr = 0 ∨ dr = 1) (hdc : dc = -1 ∨ dc = 0 ∨ dc = 1)
    (hnz : ¬(dr = 0 ∧ dc = 0)) {i j : Int} (hij : i < j)
    (hb1 : 0 ≤ row + dr * i) (hb2 : 0 ≤ col + dc * i)
    (hb3 : 0 ≤ row + dr * j) (hb4 : 0 ≤ col + dc * j) :
    (row + dr * i).toNat ≠ (row + dr * j).toNat ∨
      (col + dc * i).toNat ≠ (col + dc * j).toNat := by
  rcases hdr with rfl | rfl | rfl <;> rcases hdc with rfl | rfl | rfl <;> omega

theorem path_inBounds {size : Nat} {row col dr dc : Int}
    (hdr : dr = -1 ∨ dr = 0 ∨ dr = 1) (hdc : dc = -1 ∨ dc = 0 ∨ dc = 1)
    (hrow1 : 0 ≤ row) (hrow2 : row < (size : Int))
    (hcol1 : 0 ≤ col) (hcol2 : col < (size : Int))
    (hend : 0 ≤ row + dr * 3 ∧ row + dr * 3 < (size : Int) ∧
      0 ≤ col + dc * 3 ∧ col + dc * 3 < (size : Int))
    {i : Int} (hi0 : 0 ≤ i) (hi3 : i ≤ 3) :
    0 ≤ row + dr * i ∧ row + dr * i < (size : Int) ∧
      0 ≤ col + dc * i ∧ col + dc * i < (size : Int) := by
  rcases hdr with rfl | rfl | rfl <;> rcases hdc with rfl | rfl | rfl <;> omega

/-! ### Path-cell lemmas -/

theorem pathCells_length (row col dr dc : Int) (len : Nat) :
    (pathCells row col dr dc len).length = len := by
  unfold pathCells
  rw [List.length_map, List.length_range]

theorem pathCells_getD {row col dr dc : Int} {len i : Nat} (h : i < len)
    (d : Int × Int) :
    (pathCells row col dr dc len).getD i d = (row + dr * i, col + dc * i) := by
  rw [List.getD_eq_getElem _ _ (by rw [pathCells_length]; exact h)]
  unfold pathCells
  rw [List.getElem_map, List.getElem_range]

theorem mem_pathCells {row col dr dc : Int} {len : Nat} {x : Int × Int} :
    x ∈ pathCells row col dr dc len ↔
      ∃ i : Nat, i < len ∧ x = (row + dr * i, col + dc * i) := by
  unfold pathCells
  rw [List.mem_map]
  constructor
  · rintro ⟨i, hi, rfl⟩; exact ⟨i, List.mem_range.mp hi, rfl⟩
  · rintro ⟨i, hi, rfl⟩; exact ⟨i, List.mem_range.mpr hi, rfl⟩

/-! ### The word-writing loop -/

theorem writeWord_eq_writeFold (g : Grid) (row col dr dc : Int) :
    writeWord g row col dr dc = writeFold row col dr dc TARGET_WORD.enum g := rfl

theorem writeFold_spec {size : Nat} {row col dr dc : Int} :
    ∀ (l : List (Nat × Char)) (g : Grid),
      Grid.wf g size →
      (∀ p ∈ l, 0 ≤ row + dr * p.1 ∧ row + dr * p.1 < (size : Int) ∧
        0 ≤ col + dc * p.1 ∧ col + dc * p.1 < (size : Int)) →
      (∀ p ∈ l, natGet g (row + dr * p.1).toNat (col + dc * p.1).toNat = none) →
      l.Pairwise (fun p q => (row + dr * p.1).toNat ≠ (row + dr * q.1).toNat ∨
        (col + dc * p.1).toNat ≠ (col + dc * q.1).toNat) →
      Grid.wf (writeFold row col dr dc l g) size ∧
        gridExtends g (writeFold row col dr dc l g) ∧
        noneCount (writeFold row col dr dc l g) + l.length = noneCount g ∧
        ∀ p ∈ l, natGet (writeFold row col dr dc l g)
          (row + dr * p.1).toNat (col + dc * p.1).toNat = some p.2 := by
  intro l
  induction l with
  | nil =>
    intro g hwf _ _ _
    exact ⟨hwf, fun _ _ _ h => h, by simp [writeFold],
      fun p hp => absurd hp (List.not_mem_nil _)⟩
  | cons hd tl ih =>
    intro g hwf hb hn hpw
    obtain ⟨hphead, hptail⟩ := List.pairwise_cons.mp hpw
    have hbh := hb hd (List.mem_cons_self _ _)
    have hnh := hn hd (List.mem_cons_self _ _)
    have hrt : (row + dr * hd.1).toNat < size := by omega
    have hct : (col + dc * hd.1).toNat < size := by omega
    have hfold : writeFold row col dr dc (hd :: tl) g =
        writeFold row col dr dc tl
          (gridSet g (row + dr * hd.1) (col + dc * hd.1) hd.2) := rfl
    set g1 := gridSet g (row + dr * hd.1) (col + dc * hd.1) hd.2 with hg1
    have hwf1 : Grid.wf g1 size := wf_gridSet hwf _ _ hrt
    have hset : natGet g1 (row + dr * hd.1).toNat (col + dc * hd.1).toNat = some hd.2 :=
      natGet_gridSet_eq hwf _ hrt hct
    have hn1 : ∀ p ∈ tl,
        natGet g1 (row + dr * p.1).toNat (col + dc * p.1).toNat = none := by
      intro p hp
      rw [hg1, natGet_gridSet_ne]
      · exact hn p (List.mem_cons_of_mem _ hp)
      · intro hcc
        rcases hphead p hp with hne | hne
        · exact hne hcc.1
        · exact hne hcc.2
    have hcnt1 : noneCount g1 + 1 = noneCount g :=
      noneCount_gridSet hwf _ hrt hct hnh
    have hb1 : ∀ p ∈ tl, 0 ≤ row + dr * p.1 ∧ row + dr * p.1 < (size : Int) ∧
        0 ≤ col + dc * p.1 ∧ col + dc * p.1 < (size : Int) :=
      fun p hp => hb p (List.mem_cons_of_mem _ hp)
    obtain ⟨hwf2, hext2, hcnt2, hword2⟩ := ih g1 hwf1 hb1 hn1 hptail
    have hext1 : gridExtends g g1 := by
      intro rn cn ch hc
      rw [hg1, natGet_gridSet_ne]
      · exact hc
      · intro hcc
        rw [hcc.1, hcc.2] at hnh
        rw [hnh] at hc
        exact Option.noConfusion hc
    rw [hfold]
    refine ⟨hwf2, ?_, ?_, ?_⟩
    · exact fun rn cn ch hc => hext2 _ _ _ (hext1 _ _ _ hc)
    · simp only [List.length_cons]
      omega
    · intro p hp
      rcases List.mem_cons.mp hp with heq | hmem
      · subst heq
        exact hext2 _ _ _ hset
      · exact hword2 p hmem

theorem target_enum_eq :
    TARGET_WORD.enum = [(0, 'F'), (1, 'U'), (2, 'C'), (3, 'K')] := rfl

theorem writeWord_spec {size : Nat} {g : Grid} {row col dr dc : Int}
    (hwf : Grid.wf g size)
    (hdr : dr = -1 ∨ dr = 0 ∨ dr = 1) (hdc : dc = -1 ∨ dc = 0 ∨ dc = 1)
    (hnz : ¬(dr = 0 ∧ dc = 0))
    (hrow1 : 0 ≤ row) (hrow2 : row < (size : Int))
    (hcol1 : 0 ≤ col) (hcol2 : col < (size : Int))
    (hend : 0 ≤ row + dr * 3 ∧ row + dr * 3 < (size : Int) ∧
      0 ≤ col + dc * 3 ∧ col + dc * 3 < (size : Int))
    (hnone : ∀ p ∈ TARGET_WORD.enum,
      gridGet g (row + dr * p.1) (col + dc * p.1) = none) :
    Grid.wf (writeWord g row col dr dc) size ∧
      gridExtends g (writeWord g row col dr dc) ∧
      noneCount (writeWord g row col dr dc) + 4 = noneCount g ∧
      ∀ i : Nat, i < TARGET_WORD.length →
        natGet (writeWord g row col dr dc)
          (row + dr * i).toNat (col + dc * i).toNat =
          some (TARGET_WORD.getD i 'F') := by
  have hidx : ∀ p ∈ TARGET_WORD.enum, p.1 < 4 := by decide
  have hbi : ∀ i : Nat, i < 4 →
      0 ≤ row + dr * i ∧ row + dr * i < (size : Int) ∧
      0 ≤ col + dc * i ∧ col + dc * i < (size : Int) := by
    intro i hi
    exact path_inBounds hdr hdc hrow1 hrow2 hcol1 hcol2 hend
      (by omega) (by omega)
  have hb : ∀ p ∈ TARGET_WORD.enum, 0 ≤ row + dr * p.1 ∧
      row + dr * p.1 < (size : Int) ∧ 0 ≤ col + dc * p.1 ∧
      col + dc * p.1 < (size : Int) :=
    fun p hp => hbi p.1 (hidx p hp)
  have hn : ∀ p ∈ TARGET_WORD.enum,
      natGet g (row + dr * p.1).toNat (col + dc * p.1).toNat = none :=
    fun p hp => hnone p hp
  have hne : ∀ (i j : Nat), i < j → j < 4 →
      (row + dr * i).toNat ≠ (row + dr * j).toNat ∨
        (col + dc * i).toNat ≠ (col + dc * j).toNat := by
    intro i j hij hj
    have h1 := hbi i (by omega)
    have h2 := hbi j hj
    exact path_toNat_ne hdr hdc hnz
      (by exact_mod_cast hij) h1.1 h1.2.2.1 h2.1 h2.2.2.1
  have hpw : TARGET_WORD.enum.Pairwise
      (fun p q => (row + dr * p.1).toNat ≠ (row + dr * q.1).toNat ∨
        (col + dc * p.1).toNat ≠ (col + dc * q.1).toNat) := by
    rw [target_enum_eq]
    refine List.Pairwise.cons ?_ (List.Pairwise.cons ?_
      (List.Pairwise.cons ?_ (List.pairwise_singleton _ _)))
    · intro q hq
      rcases List.mem_cons.mp hq with rfl | hq
      · exact hne 0 1 (by omega) (by omega)
      rcases List.mem_cons.mp hq with rfl | hq
      · exact hne 0 2 (by omega) (by omega)
      rcases List.mem_cons.mp hq with rfl | hq
      · exact hne 0 3 (by omega) (by omega)
      exact absurd hq (List.not_mem_nil _)
    · intro q hq
      rcases List.mem_cons.mp hq with rfl | hq
      · exact hne 1 2 (by omega) (by omega)
      rcases List.mem_cons.mp hq with rfl | hq
      · exact hne 1 3 (by omega) (by omega)
      exact absurd hq (List.not_mem_nil _)
    · intro q hq
      rcases List.mem_cons.mp hq with rfl | hq
      · exact hne 2 3 (by omega) (by omega)
      exact absurd hq (List.not_mem_nil _)
  obtain ⟨hwf2, hext2, hcnt2, hword2⟩ :=
    writeFold_spec TARGET_WORD.enum g hwf hb hn hpw
  rw [writeWord_eq_writeFold]
  refine ⟨hwf2, hext2, hcnt2, ?_⟩
  intro i hi
  have hi4 : i < 4 := hi
  interval_cases i
  · exact hword2 (0, 'F') (by decide)
  · exact hword2 (1, 'U') (by decide)
  · exact hword2 (2, 'C') (by decide)
  · exact hword2 (3, 'K') (by decide)

/-! ### The inner placement loop -/

theorem placeWordLoop_succ (size : Nat) (dirs : List (String × Int × Int))
    (ao : Bool) (g : Grid) (rng : RNG) (fuel : Nat) :
    placeWordLoop size dirs ao g rng (fuel + 1) =
      match randint 0 ((size : Int) - 1) rng with
      | .error e => (.error e, rng)
      | .ok (row, rng1) =>
        match randint 0 ((size : Int) - 1) rng1 with
        | .error e => (.error e, rng1)
        | .ok (col, rng2) =>
          match choice dirs rng2 with
          | .error e => (.error e, rng2)
          | .ok ((dirName, dr, dc), rng3) =>
            if ¬(0 ≤ row + dr * 3 ∧ row + dr * 3 < (size : Int) ∧
                0 ≤ col + dc * 3 ∧ col + dc * 3 < (size : Int)) then
              placeWordLoop size dirs ao g rng3 fuel
            else if canPlace g row col dr dc ao then
              (.ok (some (writeWord g row col dr dc,
                ⟨(row, col), dirName,
                  pathCells row col dr dc TARGET_WORD.length⟩)), rng3)
            else placeWordLoop size dirs ao g rng3 fuel := rfl

theorem placeWordLoop_ok_some {size : Nat} {dirs : List (String × Int × Int)}
    {ao : Bool} {g g' : Grid} {m : Match} {rng' : RNG} :
    ∀ {fuel : Nat} {rng : RNG},
      placeWordLoop size dirs ao g rng fuel = (.ok (some (g', m)), rng') →
      ∃ (row col : Int) (dirName : String) (dr dc : Int),
        (dirName, dr, dc) ∈ dirs ∧
        0 ≤ row ∧ row < (size : Int) ∧ 0 ≤ col ∧ col < (size : Int) ∧
        (0 ≤ row + dr * 3 ∧ row + dr * 3 < (size : Int) ∧
          0 ≤ col + dc * 3 ∧ col + dc * 3 < (size : Int)) ∧
        canPlace g row col dr dc ao = true ∧
        g' = writeWord g row col dr dc ∧
        m = ⟨(row, col), dirName, pathCells row col dr dc TARGET_WORD.length⟩ := by
  intro fuel
  induction fuel with
  | zero =>
    intro rng h
    rw [placeWordLoop] at h
    simp at h
  | succ fuel ih =>
    intro rng h
    rw [placeWordLoop_succ] at h
    cases hr1 : randint 0 ((size : Int) - 1) rng with
    | error e => simp [hr1] at h
    | ok pr1 =>
      obtain ⟨row, rng1⟩ := pr1
      simp only [hr1] at h
      cases hr2 : randint 0 ((size : Int) - 1) rng1 with
      | error e => simp [hr2] at h
      | ok pr2 =>
        obtain ⟨col, rng2⟩ := pr2
        simp only [hr2] at h
        cases hr3 : choice dirs rng2 with
        | error e => simp [hr3] at h
        | ok pr3 =>
          obtain ⟨⟨dirName, dr, dc⟩, rng3⟩ := pr3
          simp only [hr3] at h
          by_cases hbnd : ¬(0 ≤ row + dr * 3 ∧ row + dr * 3 < (size : Int) ∧
              0 ≤ col + dc * 3 ∧ col + dc * 3 < (size : Int))
          · rw [if_pos hbnd] at h
            exact ih h
          · rw [if_neg hbnd] at h
            by_cases hcp : canPlace g row col dr dc ao = true
            · rw [if_pos hcp] at h
              simp only [Prod.mk.injEq, Except.ok.injEq, Option.some.injEq] at h
              have hb1 := randint_ok_bounds hr1
              have hb2 := randint_ok_bounds hr2
              exact ⟨row, col, dirName, dr, dc, choice_ok_mem hr3,
                hb1.1, by omega, hb2.1, by omega, not_not.mp hbnd, hcp,
                h.1.1.symm, h.1.2.symm⟩
            · rw [if_neg hcp] at h
              exact ih h

theorem placeWordLoop_no_fatal {size : Nat} (hsz : 1 ≤ size)
    {dirs : List (String × Int × Int)} (hne : dirs ≠ []) (ao : Bool) (g : Grid) :
    ∀ (fuel : Nat) (rng : RNG), ∃ res rng',
      placeWordLoop size dirs ao g rng fuel = (.ok res, rng') := by
  intro fuel
  induction fuel with
  | zero => intro rng; exact ⟨none, rng, rfl⟩
  | succ fuel ih =>
    intro rng
    have hle : (0 : Int) ≤ (size : Int) - 1 := by omega
    rw [placeWordLoop_succ]
    simp only [randint_ok_of_le hle]
    cases dirs with
    | nil => exact absurd rfl hne
    | cons d ds =>
      simp only [choice_cons_ok]
      obtain ⟨dirName, dr, dc⟩ := (d :: ds).getD _ d
      split
      · exact ih _
      · split
        · exact ⟨_, _, rfl⟩
        · exact ih _

theorem placeWordLoop_noOverlap_spec {size : Nat}
    {dirs : List (String × Int × Int)} (hdirs : ∀ d ∈ dirs, dirOk d)
    {g g' : Grid} {m : Match} {rng rng' : RNG} {fuel : Nat}
    (hwf : Grid.wf g size)
    (h : placeWordLoop size dirs false g rng fuel = (.ok (some (g', m)), rng')) :
    Grid.wf g' size ∧ gridExtends g g' ∧ noneCount g' + 4 = noneCount g ∧
      (∀ x ∈ m.cells, natGet g x.1.toNat x.2.toNat = none) ∧
      (∃ dr dc, (m.dir, dr, dc) ∈ dirs ∧
        m.cells = pathCells m.start.1 m.start.2 dr dc TARGET_WORD.length) ∧
      (∀ x ∈ m.cells, inBounds size x) ∧
      (∀ i : Nat, i < TARGET_WORD.length →
        gridGet g' ((m.cells.getD i (0, 0)).1) ((m.cells.getD i (0, 0)).2) =
          some (TARGET_WORD.getD i 'F')) := by
  obtain ⟨row, col, dirName, dr, dc, hdmem, hr1, hr2, hc1, hc2, hend, hcp, hg', hm⟩ :=
    placeWordLoop_ok_some h
  obtain ⟨hdr, hdc, hnz⟩ := hdirs _ hdmem
  subst hg' hm
  have hnone : ∀ p ∈ TARGET_WORD.enum,
      gridGet g (row + dr * p.1) (col + dc * p.1) = none :=
    canPlaceFrom_false_none TARGET_WORD.enum hcp
  obtain ⟨hwf2, hext2, hcnt2, hword2⟩ :=
    writeWord_spec hwf hdr hdc hnz hr1 hr2 hc1 hc2 hend hnone
  refine ⟨hwf2, hext2, hcnt2, ?_, ⟨dr, dc, hdmem, rfl⟩, ?_, ?_⟩
  · intro x hx
    obtain ⟨i, hi, rfl⟩ := mem_pathCells.mp hx
    have hi4 : i < 4 := hi
    interval_cases i
    · exact hnone (0, 'F') (by decide)
    · exact hnone (1, 'U') (by decide)
    · exact hnone (2, 'C') (by decide)
    · exact hnone (3, 'K') (by decide)
  · intro x hx
    obtain ⟨i, hi, rfl⟩ := mem_pathCells.mp hx
    have hi4 : i < 4 := hi
    have hbi := path_inBounds hdr hdc hr1 hr2 hc1 hc2 hend
      (i := (i : Int)) (by omega) (by omega)
    exact ⟨hbi.1, hbi.2.1, hbi.2.2.1, hbi.2.2.2⟩
  · intro i hi
    rw [pathCells_getD hi]
    exact hword2 i hi

/-! ### The outer placement loop and its no-overlap invariant -/

theorem GoodMatch.mono {size : Nat} {dirs : List (String × Int × Int)}
    {g g' : Grid} {m : Match} (hext : gridExtends g g')
    (hg : GoodMatch size dirs g m) : GoodMatch size dirs g' m :=
  ⟨hg.hdir, hg.hbounds, fun i hi => hext _ _ _ (hg.hword i hi)⟩

theorem GoodMatch.cell_some {size : Nat} {dirs : List (String × Int × Int)}
    {g : Grid} {m : Match} (hg : GoodMatch size dirs g m) :
    ∀ x ∈ m.cells, ∃ ch, gridGet g x.1 x.2 = some ch := by
  intro x hx
  obtain ⟨dr, dc, _, hcells⟩ := hg.hdir
  have hlen : m.cells.length = TARGET_WORD.length := by
    rw [hcells, pathCells_length]
  obtain ⟨n, hn, rfl⟩ := List.mem_iff_getElem.mp hx
  rw [← List.getD_eq_getElem m.cells (0, 0) hn]
  exact ⟨_, hg.hword n (by omega)⟩

theorem GoodMatch.cells_length {size : Nat} {dirs : List (String × Int × Int)}
    {g : Grid} {m : Match} (hg : GoodMatch size dirs g m) :
    m.cells.length = TARGET_WORD.length := by
  obtain ⟨dr, dc, _, hcells⟩ := hg.hdir
  rw [hcells, pathCells_length]

theorem placeWords_noOverlap_inv {size : Nat}
    {dirs : List (String × Int × Int)} (hdirs : ∀ d ∈ dirs, dirOk d) :
    ∀ (k : Nat) (g : Grid) (ms : List Match) (rng : RNG) {g' : Grid}
      {ms' : List Match} {rng' : RNG},
      placeWords size dirs false k g ms rng = (.ok (g', ms'), rng') →
      Grid.wf g size →
      (∀ m ∈ ms, GoodMatch size dirs g m) →
      ms.Pairwise cellsDisjoint →
      Grid.wf g' size ∧ gridExtends g g' ∧
        noneCount g' + 4 * k = noneCount g ∧
        ms'.length = ms.length + k ∧
        (∀ m ∈ ms', GoodMatch size dirs g' m) ∧
        ms'.Pairwise cellsDisjoint := by
  intro k
  induction k with
  | zero =>
    intro g ms rng g' ms' rng' h hwf hgood hdisj
    rw [placeWords] at h
    simp only [Prod.mk.injEq, Except.ok.injEq] at h
    obtain ⟨⟨rfl, rfl⟩, _⟩ := h
    exact ⟨hwf, fun _ _ _ hc => hc, by omega, by omega, hgood, hdisj⟩
  | succ k ih =>
    intro g ms rng g' ms' rng' h hwf hgood hdisj
    simp only [placeWords] at h
    rcases hpl : placeWordLoop size dirs false g rng maxPlaceAttempts
      with ⟨res, rngA⟩
    simp only [hpl] at h
    cases res with
    | error e => simp at h
    | ok opt =>
      cases opt with
      | none => simp at h
      | some pr =>
        obtain ⟨g1, m⟩ := pr
        obtain ⟨hwf1, hext1, hcnt1, hnone1, hdir1, hbounds1, hword1⟩ :=
          placeWordLoop_noOverlap_spec hdirs hwf hpl
        have hm : GoodMatch size dirs g1 m := ⟨hdir1, hbounds1, hword1⟩
        have hgood1 : ∀ m0 ∈ ms ++ [m], GoodMatch size dirs g1 m0 := by
          intro m0 hm0
          rcases List.mem_append.mp hm0 with hin | hin
          · exact (hgood m0 hin).mono hext1
          · rw [List.mem_singleton.mp hin]
            exact hm
        have hdisj1 : (ms ++ [m]).Pairwise cellsDisjoint := by
          rw [List.pairwise_append]
          refine ⟨hdisj, List.pairwise_singleton _ _, ?_⟩
          intro m0 hm0 m1 hm1
          rw [List.mem_singleton] at hm1
          subst hm1
          intro x hx0 hxm
          have hxnone := hnone1 x hxm
          obtain ⟨ch, hxsome⟩ := (hgood m0 hm0).cell_some x hx0
          rw [gridGet] at hxsome
          rw [hxsome] at hxnone
          exact Option.noConfusion hxnone
        obtain ⟨hwf', hext', hcnt', hlen', hgood', hdisj'⟩ :=
          ih g1 (ms ++ [m]) rngA h hwf1 hgood1 hdisj1
        refine ⟨hwf', fun rn cn ch hc => hext' _ _ _ (hext1 _ _ _ hc),
          by omega, ?_, hgood', hdisj'⟩
        rw [hlen', List.length_append]
        simp
        omega

/-! ### C3: size 4, count 10, no overlap always exhausts the retry budget -/

theorem placeWords_insufficient_error {size : Nat}
    {dirs : List (String × Int × Int)} (hdirs : ∀ d ∈ dirs, dirOk d)
    {k : Nat} {rng : RNG}
    (hbig : noneCount (createEmptyGrid size) < 4 * k) {res : Except PyError (Grid × List Match)} {rng' : RNG}
    (h : placeWords size dirs false k (createEmptyGrid size) [] rng = (res, rng')) :
    ∃ e, res = .error e := by
  cases res with
  | error e => exact ⟨e, rfl⟩
  | ok pr =>
    obtain ⟨g', ms'⟩ := pr
    obtain ⟨_, _, hcnt, _⟩ := placeWords_noOverlap_inv hdirs k
      (createEmptyGrid size) [] rng h (wf_createEmptyGrid size)
      (fun m hm => absurd hm (List.not_mem_nil _)) List.Pairwise.nil
    omega

theorem placeWords_error_valueError {size : Nat} (hsz : 1 ≤ size)
    {dirs : List (String × Int × Int)} (hne : dirs ≠ []) (ao : Bool) :
    ∀ (k : Nat) (g : Grid) (ms : List Match) (rng : RNG) {e : PyError}
      {rng' : RNG},
      placeWords size dirs ao k g ms rng = (.error e, rng') →
      e = .valueError := by
  intro k
  induction k with
  | zero =>
    intro g ms rng e rng' h
    rw [placeWords] at h
    simp at h
  | succ k ih =>
    intro g ms rng e rng' h
    simp only [placeWords] at h
    obtain ⟨res, rngA, hres⟩ :=
      placeWordLoop_no_fatal hsz hne ao g maxPlaceAttempts rng
    simp only [hres] at h
    cases res with
    | none =>
      simp only [Prod.mk.injEq, Except.error.injEq] at h
      exact h.1.symm
    | some pr =>
      obtain ⟨g1, m⟩ := pr
      exact ih _ _ _ h

theorem attemptOnce_insufficient {size : Nat} {target : Int} {dm mode : String}
    {dirs : List (String × Int × Int)} {sv : Option Int}
    (hdirs : ∀ d ∈ dirs, dirOk d) (hsz : 1 ≤ size) (hne : dirs ≠ [])
    (hbig : noneCount (createEmptyGrid size) < 4 * target.toNat) (rng : RNG) :
    ∃ rng', attemptOnce size target dm false mode dirs sv rng = (.fail, rng') := by
  unfold attemptOnce
  rcases hpw : placeWords size dirs false target.toNat (createEmptyGrid size) [] rng
    with ⟨res, rngA⟩
  obtain ⟨e, rfl⟩ := placeWords_insufficient_error hdirs hbig hpw
  have he : e = .valueError := placeWords_error_valueError hsz hne false _ _ _ _ hpw
  subst he
  refine ⟨rngA, ?_⟩
  simp only [hpw]

theorem attemptsLoop_insufficient {size : Nat} {target : Int} {dm mode : String}
    {dirs : List (String × Int × Int)} {sv : Option Int}
    (hfail : ∀ rng : RNG, ∃ rng',
      attemptOnce size target dm false mode dirs sv rng = (.fail, rng')) :
    ∀ (n : Nat) (rng : RNG), ∃ rng',
      attemptsLoop size target dm false mode dirs sv n rng =
        (.error (.runtimeError failMsg), rng') := by
  intro n
  induction n with
  | zero => intro rng; exact ⟨rng, rfl⟩
  | succ n ih =>
    intro rng
    obtain ⟨rngA, hA⟩ := hfail rng
    obtain ⟨rng', h'⟩ := ih rngA
    refine ⟨rng', ?_⟩
    rw [attemptsLoop]
    simp only [hA]
    exact h'

/-- C3: a size-4 grid cannot hold 10 non-overlapping words: for every
distribution mode, directions mode, stored seed and random stream,
`generate_grid 4` with `requested_count = 10` and `allow_overlap = false`
exhausts its 25 whole-grid attempts (each failing in the inner 1000-try
placement budget) and raises the terminal `RuntimeError` whose message
names the remedies. -/
theorem C3_capacity_exhaustion (dm mode : String) (sv : Option Int) (rng : RNG) :
    (generate_grid 4 (.inl 10) dm false mode sv rng).1 =
      .error (.runtimeError failMsg) := by
  have hfail : ∀ rng0 : RNG, ∃ rng1, attemptOnce 4 10 dm false mode
      (getAllowedDirections mode) sv rng0 = (.fail, rng1) :=
    fun rng0 => attemptOnce_insufficient (dirs_dirOk mode) (by omega)
      (dirs_ne_nil mode) (by decide) rng0
  obtain ⟨rng', h⟩ := attemptsLoop_insufficient hfail maxRetries rng
  simp only [generate_grid]
  rw [h]

/-! ### Scanner completeness: a word present in the grid is found -/

theorem checkWordFrom_some {g : Grid} {size : Nat} {sr sc dr dc : Int} :
    ∀ (fuel i : Nat),
      (∀ j : Nat, i ≤ j → j < i + fuel →
        0 ≤ sr + dr * j ∧ sr + dr * j < (size : Int) ∧
        0 ≤ sc + dc * j ∧ sc + dc * j < (size : Int)) →
      checkWordFrom g sr sc dr dc size i fuel =
        some ((List.range' i fuel).map fun (j : Nat) => (sr + dr * j, sc + dc * j),
          (List.range' i fuel).map fun (j : Nat) =>
            gridGet g (sr + dr * j) (sc + dc * j)) := by
  intro fuel
  induction fuel with
  | zero => intro i _; rfl
  | succ fuel ih =>
    intro i hb
    have hcond := hb i (le_refl i) (by omega)
    simp only [checkWordFrom]
    rw [if_pos hcond, ih (i + 1) (fun j hj1 hj2 => hb j (by omega) (by omega))]
    rw [List.range'_succ]
    simp only [List.map_cons]

theorem checkWordAtPosition_some {g : Grid} {size : Nat} {sr sc dr dc : Int}
    (hb : ∀ j : Nat, j < 4 →
      0 ≤ sr + dr * j ∧ sr + dr * j < (size : Int) ∧
      0 ≤ sc + dc * j ∧ sc + dc * j < (size : Int))
    (hw : ∀ j : Nat, j < 4 →
      gridGet g (sr + dr * j) (sc + dc * j) = some (TARGET_WORD.getD j 'F')) :
    checkWordAtPosition g sr sc dr dc size =
      some (pathCells sr sc dr dc TARGET_WORD.length) := by
  unfold checkWordAtPosition
  rw [checkWordFrom_some TARGET_WORD.length 0 (fun j h1 h2 => hb j (by
    have hlen4 : TARGET_WORD.length = 4 := rfl
    omega))]
  have hr : List.range' 0 TARGET_WORD.length = [0, 1, 2, 3] := rfl
  rw [hr]
  simp only [List.map_cons, List.map_nil]
  rw [hw 0 (by omega), hw 1 (by omega), hw 2 (by omega), hw 3 (by omega)]
  rw [if_pos (by decide :
    ([some (TARGET_WORD.getD 0 'F'), some (TARGET_WORD.getD 1 'F'),
      some (TARGET_WORD.getD 2 'F'), some (TARGET_WORD.getD 3 'F')] : List Cell) =
      TARGET_WORD.map some)]
  rfl

/-! ### The fill stage preserves written letters -/

theorem fillRow_spec {weights : List Char} :
    ∀ (row : List Cell) {row' : List Cell} {rng rng' : RNG},
      fillRow weights row rng = (.ok row', rng') →
      row'.length = row.length ∧
      ∀ (i : Nat) (ch : Char), row.getD i none = some ch →
        row'.getD i none = some ch := by
  intro row
  induction row with
  | nil =>
    intro row' rng rng' h
    rw [fillRow] at h
    simp only [Prod.mk.injEq, Except.ok.injEq] at h
    rw [← h.1]
    exact ⟨rfl, fun i ch hc => absurd hc (by simp)⟩
  | cons c cs ih =>
    intro row' rng rng' h
    simp only [fillRow] at h
    rcases hfc : fillCell weights c rng with ⟨cres, rngA⟩
    simp only [hfc] at h
    cases cres with
    | error e => simp at h
    | ok c' =>
      rcases hfr : fillRow weights cs rngA with ⟨csres, rngB⟩
      simp only [hfr] at h
      cases csres with
      | error e => simp at h
      | ok cs' =>
        simp only [Prod.mk.injEq, Except.ok.injEq] at h
        obtain ⟨hrow, _⟩ := h
        subst hrow
        obtain ⟨hlen, hpres⟩ := ih hfr
        refine ⟨by simp [hlen], ?_⟩
        intro i ch hc
        cases i with
        | zero =>
          simp only [List.getD_cons_zero] at hc ⊢
          cases c with
          | none => exact Option.noConfusion hc
          | some x =>
            simp only [fillCell] at hfc
            simp only [Prod.mk.injEq, Except.ok.injEq] at hfc
            rw [← hfc.1]
            exact hc
        | succ i =>
          simp only [List.getD_cons_succ] at hc ⊢
          exact hpres i ch hc

theorem fillGrid_spec {weights : List Char} :
    ∀ (g : Grid) {g' : Grid} {rng rng' : RNG},
      fillGrid weights g rng = (.ok g', rng') →
      g'.length = g.length ∧
      (∀ r : Nat, (g'.getD r []).length = (g.getD r []).length) ∧
      gridExtends g g' := by
  intro g
  induction g with
  | nil =>
    intro g' rng rng' h
    rw [fillGrid] at h
    simp only [Prod.mk.injEq, Except.ok.injEq] at h
    rw [← h.1]
    refine ⟨rfl, fun r => rfl, ?_⟩
    intro rn cn ch hc
    exact absurd hc (by simp [natGet])
  | cons row rows ih =>
    intro g' rng rng' h
    simp only [fillGrid] at h
    rcases hfr : fillRow weights row rng with ⟨rres, rngA⟩
    simp only [hfr] at h
    cases rres with
    | error e => simp at h
    | ok row' =>
      rcases hfg : fillGrid weights rows rngA with ⟨rsres, rngB⟩
      simp only [hfg] at h
      cases rsres with
      | error e => simp at h
      | ok rows' =>
        simp only [Prod.mk.injEq, Except.ok.injEq] at h
        obtain ⟨hg, _⟩ := h
        subst hg
        obtain ⟨hrlen, hrpres⟩ := fillRow_spec row hfr
        obtain ⟨hglen, hgrows, hgext⟩ := ih hfg
        refine ⟨by simp [hglen], ?_, ?_⟩
        · intro r
          cases r with
          | zero => simpa using hrlen
          | succ r => simpa using hgrows r
        · intro rn cn ch hc
          cases rn with
          | zero =>
            simp only [natGet, List.getD_cons_zero] at hc ⊢
            exact hrpres cn ch hc
          | succ rn =>
            simp only [natGet, List.getD_cons_succ] at hc ⊢
            exact hgext rn cn ch hc

theorem wf_of_fill {g g' : Grid} {size : Nat} (hwf : Grid.wf g size)
    (hlen : g'.length = g.length)
    (hrows : ∀ r : Nat, (g'.getD r []).length = (g.getD r []).length) :
    Grid.wf g' size := by
  constructor
  · rw [hlen, hwf.1]
  · intro row hrow
    obtain ⟨n, hn, rfl⟩ := List.mem_iff_getElem.mp hrow
    rw [← List.getD_eq_getElem g' [] hn, hrows n]
    exact row_length hwf (by rw [← hwf.1, ← hlen]; exact hn)

/-! ### Scan triples membership -/

theorem mem_scanTriples {size : Nat} {dirs : List (String × Int × Int)}
    {row col : Nat} (hrow : row < size) (hcol : col < size)
    {d : String × Int × Int} (hd : d ∈ dirs) :
    (row, col, d.1, d.2.1, d.2.2) ∈ scanTriples size dirs := by
  unfold scanTriples
  exact List.mem_flatMap.mpr ⟨row, List.mem_range.mpr hrow,
    List.mem_flatMap.mpr ⟨col, List.mem_range.mpr hcol,
      List.mem_map.mpr ⟨d, hd, rfl⟩⟩⟩

/-! ### C4: the key-counting argument -/

theorem cells_perm_of_key_eq {a b : List (Int × Int)}
    (h : normalizeMatch a = normalizeMatch b) : a.Perm b := by
  have ha := List.perm_insertionSort pairLe a
  have hb := List.perm_insertionSort pairLe b
  have hab : (normalizeMatch a).Perm b := by rw [h]; exact hb
  exact ha.symm.trans hab

theorem GoodMatch.check {size : Nat} {dirs : List (String × Int × Int)}
    {g : Grid} {m : Match} (hg : GoodMatch size dirs g m) :
    ∃ dr dc, (m.dir, dr, dc) ∈ dirs ∧
      0 ≤ m.start.1 ∧ m.start.1 < (size : Int) ∧
      0 ≤ m.start.2 ∧ m.start.2 < (size : Int) ∧
      checkWordAtPosition g m.start.1 m.start.2 dr dc size = some m.cells := by
  obtain ⟨dr, dc, hdmem, hcells⟩ := hg.hdir
  have hgetD : ∀ i : Nat, i < 4 →
      m.cells.getD i (0, 0) = (m.start.1 + dr * i, m.start.2 + dc * i) := by
    intro i hi
    rw [hcells]
    exact pathCells_getD hi _
  have hmem : ∀ i : Nat, i < 4 →
      (m.start.1 + dr * i, m.start.2 + dc * i) ∈ m.cells := by
    intro i hi
    rw [hcells]
    exact mem_pathCells.mpr ⟨i, hi, rfl⟩
  have hbnd : ∀ i : Nat, i < 4 →
      0 ≤ m.start.1 + dr * i ∧ m.start.1 + dr * i < (size : Int) ∧
      0 ≤ m.start.2 + dc * i ∧ m.start.2 + dc * i < (size : Int) := by
    intro i hi
    have hx := hg.hbounds _ (hmem i hi)
    exact ⟨hx.1, hx.2.1, hx.2.2.1, hx.2.2.2⟩
  have hw : ∀ i : Nat, i < 4 →
      gridGet g (m.start.1 + dr * i) (m.start.2 + dc * i) =
        some (TARGET_WORD.getD i 'F') := by
    intro i hi
    have hh := hg.hword i hi
    rw [hgetD i hi] at hh
    exact hh
  have hs := hbnd 0 (by omega)
  refine ⟨dr, dc, hdmem, by simpa using hs.1, by simpa using hs.2.1,
    by simpa using hs.2.2.1, by simpa using hs.2.2.2, ?_⟩
  rw [checkWordAtPosition_some hbnd hw, hcells]

theorem scan_matches_disjoint {size : Nat} {g : Grid} {mode : String}
    {ms : List Match} (hglen : g.length = size)
    (hgood : ∀ m ∈ ms, GoodMatch size (getAllowedDirections mode) g m)
    (hdisj : ms.Pairwise cellsDisjoint)
    (hcount : (scan_grid g mode).2.length = ms.length) :
    (scan_grid g mode).2.Pairwise cellsDisjoint := by
  have hplaced : ∀ m ∈ ms, normalizeMatch m.cells ∈ matchKeys (scan_grid g mode).2 := by
    intro m hm
    obtain ⟨dr, dc, hdmem, hs1, hs2, hs3, hs4, hchk⟩ := (hgood m hm).check
    have hrn : m.start.1.toNat < size := by omega
    have hcn : m.start.2.toNat < size := by omega
    have htrip : (m.start.1.toNat, m.start.2.toNat, m.dir, dr, dc) ∈
        scanTriples g.length (getAllowedDirections mode) := by
      rw [hglen]
      exact mem_scanTriples hrn hcn (d := (m.dir, dr, dc)) hdmem
    have hchk' : checkWordAtPosition g (m.start.1.toNat : Int)
        (m.start.2.toNat : Int) dr dc g.length = some m.cells := by
      rw [Int.toNat_of_nonneg hs1, Int.toNat_of_nonneg hs3, hglen]
      exact hchk
    exact scanFold_complete g g.length _ [] _ _ _ _ _ _ htrip hchk'
  have hknodup_s := scan_grid_keys_nodup g mode
  have hkeysne_p : ms.Pairwise
      (fun a b => normalizeMatch a.cells ≠ normalizeMatch b.cells) := by
    refine hdisj.imp_of_mem ?_
    intro a b ha hb hR heq
    have hperm := cells_perm_of_key_eq heq
    have hlen := (hgood a ha).cells_length
    have hx : ∃ x, x ∈ a.cells := List.exists_mem_of_ne_nil _ (by
      intro hnil
      rw [hnil] at hlen
      simp [TARGET_WORD] at hlen)
    obtain ⟨x, hxa⟩ := hx
    exact hR x hxa (hperm.mem_iff.mp hxa)
  have hknodup_p : (matchKeys ms).Nodup := List.pairwise_map.mpr hkeysne_p
  have hsub : ∀ k ∈ matchKeys ms, k ∈ matchKeys (scan_grid g mode).2 := by
    intro k hk
    obtain ⟨m, hm, rfl⟩ := List.mem_map.mp hk
    exact hplaced m hm
  have hlen_eq : (matchKeys (scan_grid g mode).2).length = (matchKeys ms).length := by
    simp only [matchKeys, List.length_map]
    exact hcount
  have hfin : (matchKeys (scan_grid g mode).2).toFinset = (matchKeys ms).toFinset := by
    refine (Finset.eq_of_subset_of_card_le ?_ ?_).symm
    · intro k hk
      exact List.mem_toFinset.mpr (hsub k (List.mem_toFinset.mp hk))
    · rw [List.toFinset_card_of_nodup hknodup_s,
        List.toFinset_card_of_nodup hknodup_p]
      exact hlen_eq.le
  have hkey_placed : ∀ k ∈ matchKeys (scan_grid g mode).2, k ∈ matchKeys ms := by
    intro k hk
    have h1 := List.mem_toFinset.mpr hk
    rw [hfin] at h1
    exact List.mem_toFinset.mp h1
  have hscpair : (scan_grid g mode).2.Pairwise
      (fun a b => normalizeMatch a.cells ≠ normalizeMatch b.cells) :=
    List.pairwise_map.mp hknodup_s
  have hsymm : Symmetric cellsDisjoint := by
    intro a b hab x hxb hxa
    exact hab x hxa hxb
  have hall := hdisj.forall hsymm
  refine hscpair.imp_of_mem ?_
  intro a b ha hb hne
  obtain ⟨pa, hpa, hkeya⟩ :=
    List.mem_map.mp (hkey_placed _ (List.mem_map.mpr ⟨a, ha, rfl⟩))
  obtain ⟨pb, hpb, hkeyb⟩ :=
    List.mem_map.mp (hkey_placed _ (List.mem_map.mpr ⟨b, hb, rfl⟩))
  have hpane : pa ≠ pb := by
    intro he
    apply hne
    rw [← hkeya, ← hkeyb, he]
  have hdisjp : cellsDisjoint pa pb := hall hpa hpb hpane
  have hpermA : a.cells.Perm pa.cells := cells_perm_of_key_eq hkeya.symm
  have hpermB : b.cells.Perm pb.cells := cells_perm_of_key_eq hkeyb.symm
  intro x hxa hxb
  exact hdisjp x (hpermA.mem_iff.mp hxa) (hpermB.mem_iff.mp hxb)

/-! ### C4: matches of a no-overlap puzzle are pairwise cell-disjoint -/

theorem attemptOnce_success_anatomy {size : Nat} {target : Int} {dm : String}
    {ao : Bool} {mode : String} {dirs : List (String × Int × Int)}
    {sv : Option Int} {rng rng' : RNG} {p : Puzzle}
    (h : attemptOnce size target dm ao mode dirs sv rng = (.success p, rng')) :
    ∃ g1 ms1 rngA rngB,
      placeWords size dirs ao target.toNat (createEmptyGrid size) [] rng =
        (.ok (g1, ms1), rngA) ∧
      fillGrid (fillWeights dm) g1 rngA = (.ok p.grid, rngB) ∧
      p.true_count = target ∧
      p.matches' = (scan_grid p.grid mode).2 ∧
      ((scan_grid p.grid mode).1 : Int) = target := by
  unfold attemptOnce at h
  split at h
  · simp at h
  · simp at h
  · rename_i g1 ms1 rngA hpw
    split at h
    · simp at h
    · simp at h
    · rename_i g2 rngB hfill
      replace h :
          (if ((scan_grid g2 mode).1 : Int) = target then
            (AttemptOutcome.success
              ⟨g2, target, (scan_grid g2 mode).2, ⟨size, dm, ao, mode, sv⟩⟩, rngB)
          else (AttemptOutcome.fail, rngB)) = (.success p, rng') := h
      split at h
      · rename_i hguard
        simp only [Prod.mk.injEq, AttemptOutcome.success.injEq] at h
        obtain ⟨hp, _⟩ := h
        rw [← hp]
        exact ⟨g1, ms1, rngA, rngB, hpw, hfill, rfl, rfl, hguard⟩
      · simp at h

/-- C4: for every puzzle successfully returned by `generate_grid` with
`allow_overlap = false`, the cell lists of the puzzle's matches are
pairwise disjoint: no grid cell appears in two different matches. -/
theorem C4_no_overlap_disjoint (size : Nat) (req : Int ⊕ (Int × Int))
    (dm mode : String) (sv : Option Int) (rng : RNG) (p : Puzzle)
    (h : (generate_grid size req dm false mode sv rng).1 = .ok p) :
    p.matches'.Pairwise cellsDisjoint := by
  refine generate_grid_ok (P := fun q => q.matches'.Pairwise cellsDisjoint)
    ?_ req rng p h
  intro target rng0 p0 rng1 ha
  obtain ⟨g1, ms1, rngA, rngB, hpw, hfill, htc, hmatches, hguard⟩ :=
    attemptOnce_success_anatomy ha
  have hdirs := dirs_dirOk mode
  obtain ⟨hwf1, hext1, hcnt1, hlen1, hgood1, hdisj1⟩ :=
    placeWords_noOverlap_inv hdirs _ _ _ _ hpw (wf_createEmptyGrid size)
      (fun m hm => absurd hm (List.not_mem_nil _)) List.Pairwise.nil
  obtain ⟨hflen, hfrows, hfext⟩ := fillGrid_spec g1 hfill
  have hwf2 : Grid.wf p0.grid size := wf_of_fill hwf1 hflen hfrows
  have hgood2 : ∀ m ∈ ms1, GoodMatch size (getAllowedDirections mode) p0.grid m :=
    fun m hm => (hgood1 m hm).mono hfext
  have hcount : (scan_grid p0.grid mode).2.length = ms1.length := by
    rw [scan_grid_fst] at hguard
    have hlen1' : ms1.length = target.toNat := by simpa using hlen1
    omega
  rw [hmatches]
  exact scan_matches_disjoint hwf2.1 hgood2 hdisj1 hcount

/-- C4 witness: a concrete no-overlap generation with one placed word. -/
theorem C4_witness : c4Puzzle.matches'.Pairwise cellsDisjoint :=
  C4_no_overlap_disjoint 4 (.inl 1) "even" "all" none c4Stream c4Puzzle
    (by decide)

end HMF
